import Mathlib

/-
Verification of the BrickDash phase-4 counter-reconciliation core
(src/brickDash/phase4/brickDash_phase4.py).

The state machine embedded here mirrors `BrickDashApp`: the reconciler
fields (`previous_raw`, `offset`, `adjusted_bricks`, `reset_count`), the
in-memory series buffers (`timestamps`, `bricks_cut_values`,
`bricks_cut_per_hour`, `bricks_per_5min`), the CSV deduplication state
(`previous_logged_bricks`, `csv_records`) and the status string.  One poll
iteration of `logging_loop` becomes `pollIteration`; a CSV write failure,
which the Python code does not catch, is modelled as `Except.error`
carrying the state at the point where the exception escapes the loop.
-/

namespace BrickDash

/-- The event classification written to the log, as in `logging_loop`. -/
inductive Event where
  | NORMAL
  | RESET_DETECTED
deriving DecidableEq, Repr

/-- One CSV row as written by `logging_loop`. -/
structure LogRecord where
  timestamp : String
  raw : Int
  adjusted : Int
  event : Event
deriving DecidableEq, Repr

/-- The parts of `datetime.now()` that `logging_loop` consumes. -/
structure Wallclock where
  hour : Nat
  minute : Nat
  second : Nat
  dateStr : String
deriving DecidableEq, Repr

/-- Two-digit zero padding, as in the `02d` format specifier. -/
def pad2 (n : Nat) : String :=
  if n < 10 then "0" ++ toString n else toString n

/-- `now.strftime("%H:%M:%S")`. -/
def timeStr (w : Wallclock) : String :=
  pad2 w.hour ++ ":" ++ pad2 w.minute ++ ":" ++ pad2 w.second

/-- `now.strftime("%Y-%m-%d %H:%M:%S")`. -/
def fullTimeStr (w : Wallclock) : String :=
  w.dateStr ++ " " ++ timeStr w

/-- The 5-minute bucket key: minute floored to a multiple of 5. -/
def bucketLabel (w : Wallclock) : String :=
  pad2 w.hour ++ ":" ++ pad2 (w.minute - w.minute % 5)

/-- The mutable state of `BrickDashApp` relevant to the polling loop. -/
structure AppState where
  previous_logged_bricks : Option Int
  timestamps : List String
  bricks_cut_values : List Int
  bricks_cut_per_hour : List Int
  bricks_per_5min : List (String × List Int)
  previous_raw : Option Int
  offset : Int
  adjusted_bricks : Int
  reset_count : Nat
  csv_records : List LogRecord
  status : String
deriving DecidableEq, Repr

/-- The state established by `BrickDashApp.__init__`. -/
def initApp : AppState where
  previous_logged_bricks := none
  timestamps := []
  bricks_cut_values := []
  bricks_cut_per_hour := []
  bricks_per_5min := []
  previous_raw := none
  offset := 0
  adjusted_bricks := 0
  reset_count := 0
  csv_records := []
  status := "Waiting for first data point..."

/-- The reset-detection and adjusted-count update of `logging_loop`
(lines 136-154): if a previous raw value exists and the new raw value is
smaller, bank the previous raw value into `offset`, bump `reset_count`
and classify the step as `RESET_DETECTED`; in every branch the new
adjusted count is `offset + raw` (with the updated offset) and
`previous_raw` becomes the raw value just processed. -/
def reconcileStep (s : AppState) (raw : Int) (ts : String) : AppState × Event :=
  match s.previous_raw with
  | some p =>
      if raw < p then
        ({ s with
            reset_count := s.reset_count + 1
            offset := s.offset + p
            status := "Reset " ++ toString (s.reset_count + 1) ++ " detected at "
              ++ ts ++ ", continuing count"
            adjusted_bricks := s.offset + p + raw
            previous_raw := some raw }, Event.RESET_DETECTED)
      else
        ({ s with
            status := "Last update " ++ ts ++ " | Bricks Cut (raw): " ++ toString raw
            adjusted_bricks := s.offset + raw
            previous_raw := some raw }, Event.NORMAL)
  | none =>
      ({ s with
          status := "Last update " ++ ts ++ " | Bricks Cut (raw): " ++ toString raw
          adjusted_bricks := s.offset + raw
          previous_raw := some raw }, Event.NORMAL)

/-- The sequence of adjusted values returned by successive reconcile steps. -/
def runReconcile (s : AppState) : List Int → List Int
  | [] => []
  | r :: rs =>
      ((reconcileStep s r "").1.adjusted_bricks) :: runReconcile (reconcileStep s r "").1 rs

/-- The full trace of states and events over a raw input sequence. -/
def reconcileTrace (s : AppState) : List Int → List (AppState × Event)
  | [] => []
  | r :: rs => reconcileStep s r "" :: reconcileTrace (reconcileStep s r "").1 rs

/-- The reconciler invariant relating `adjusted_bricks`, `offset` and
`previous_raw`. -/
def ReconInv (s : AppState) : Prop :=
  match s.previous_raw with
  | none => s.adjusted_bricks ≤ s.offset
  | some p => s.adjusted_bricks = s.offset + p

theorem reconInv_initApp : ReconInv initApp := by
  simp [ReconInv, initApp]

theorem reconcileStep_inv (s : AppState) (raw : Int) (ts : String) :
    ReconInv (reconcileStep s raw ts).1 := by
  unfold reconcileStep
  cases s.previous_raw with
  | none => simp [ReconInv]
  | some p =>
      by_cases h : raw < p <;> simp [h, ReconInv]

theorem reconcileStep_mono (s : AppState) (raw : Int) (ts : String)
    (hinv : ReconInv s) (hraw : 0 ≤ raw) :
    s.adjusted_bricks ≤ (reconcileStep s raw ts).1.adjusted_bricks := by
  unfold reconcileStep
  unfold ReconInv at hinv
  cases hp : s.previous_raw with
  | none =>
      rw [hp] at hinv
      simp only []
      omega
  | some p =>
      rw [hp] at hinv
      by_cases h : raw < p <;> simp [h] <;> omega

theorem runReconcile_chain (l : List Int) :
    ∀ s : AppState, ReconInv s → (∀ r ∈ l, 0 ≤ r) →
      List.Chain' (· ≤ ·) (s.adjusted_bricks :: runReconcile s l) := by
  induction l with
  | nil => intro s _ _; simp [runReconcile]
  | cons r rs ih =>
      intro s hinv hl
      have hr : 0 ≤ r := hl r (by simp)
      have hrs : ∀ x ∈ rs, 0 ≤ x := fun x hx => hl x (by simp [hx])
      have hstep := reconcileStep_mono s r "" hinv hr
      have hnext := ih (reconcileStep s r "").1 (reconcileStep_inv s r "") hrs
      simp only [runReconcile]
      exact List.chain'_cons.2 ⟨hstep, hnext⟩

/-- C1: over any sequence of non-negative raw readings fed in order to the
reconciliation step from the initial state, the sequence of returned
adjusted values is monotonically non-decreasing: each reconcile call
returns an adjusted value at least the one returned by the previous
call. -/
theorem adjusted_monotone (l : List Int) (hl : ∀ r ∈ l, 0 ≤ r) :
    List.Chain' (· ≤ ·) (runReconcile initApp l) :=
  (runReconcile_chain l initApp reconInv_initApp hl).tail

/-- Witness for C1 at the concrete raw sequence `[5, 10, 15, 2, 7]`. -/
theorem adjusted_monotone_witness :
    List.Chain' (· ≤ ·) (runReconcile initApp [5, 10, 15, 2, 7]) :=
  adjusted_monotone [5, 10, 15, 2, 7] (by decide)

/-- C2: whenever a previous raw value is set and the new raw value is
strictly smaller, the reconcile step increments `reset_count`, adds the
previous raw value to `offset`, sets the adjusted count to the new
`offset + raw` and classifies the step as `RESET_DETECTED`; concretely,
over the raw sequence `[5, 10, 15, 2, 7]` the step that processes 2 ends
with offset 15 and event `RESET_DETECTED`, and the subsequent adjusted
values equal `offset + raw`. -/
theorem reset_step_banks_offset (s : AppState) (raw p : Int) (ts : String)
    (hp : s.previous_raw = some p) (hlt : raw < p) :
    (reconcileStep s raw ts).1.reset_count = s.reset_count + 1 ∧
    (reconcileStep s raw ts).1.offset = s.offset + p ∧
    (reconcileStep s raw ts).1.adjusted_bricks = (reconcileStep s raw ts).1.offset + raw ∧
    (reconcileStep s raw ts).2 = Event.RESET_DETECTED ∧
    (reconcileTrace initApp [5, 10, 15, 2, 7]).map
        (fun x => (x.1.offset, x.1.adjusted_bricks, x.2)) =
      [(0, 5, Event.NORMAL), (0, 10, Event.NORMAL), (0, 15, Event.NORMAL),
       (15, 17, Event.RESET_DETECTED), (15, 22, Event.NORMAL)] := by
  unfold reconcileStep
  rw [hp]
  simp [hlt]
  decide

/-- An intermediate reconciler state: three normal readings 5, 10, 15 seen. -/
def sampleMidState : AppState :=
  { initApp with previous_raw := some 15, adjusted_bricks := 15 }

/-- Witness for C2: reconciling raw value 2 after peak 15 banks 15 into the
offset. -/
theorem reset_step_banks_offset_witness :
    (reconcileStep sampleMidState 2 "").1.offset = sampleMidState.offset + 15 :=
  (reset_step_banks_offset sampleMidState 2 15 "" rfl (by decide)).2.1

/-- C3: after every reconcile step the post-state satisfies
`adjusted_bricks = offset + previous_raw` with `previous_raw` now equal to
the raw value just processed; since this holds for an arbitrary pre-state,
it is preserved by every subsequent step. -/
theorem reconcile_post_invariant (s : AppState) (raw : Int) (ts : String) :
    (reconcileStep s raw ts).1.previous_raw = some raw ∧
    (reconcileStep s raw ts).1.adjusted_bricks = (reconcileStep s raw ts).1.offset + raw := by
  unfold reconcileStep
  cases s.previous_raw with
  | none => simp
  | some p => by_cases h : raw < p <;> simp [h]

/-- The rate-per-hour sample computed under the lock in `logging_loop`
(lines 167-175): once the freshly appended series has at least two
entries, the difference of its last two entries times 60; otherwise 0. -/
def rateOf (values : List Int) : Int :=
  if 2 ≤ values.length then
    (values.getLast?.getD 0 - values.dropLast.getLast?.getD 0) * 60
  else 0

/-- Python-dict update for the 5-minute buckets: append to an existing
key's list in place, or add a fresh key at the end (insertion order). -/
def bucketInsert : List (String × List Int) → String → Int → List (String × List Int)
  | [], key, v => [(key, [v])]
  | kv :: rest, key, v =>
      if kv.1 = key then (kv.1, kv.2 ++ [v]) :: rest
      else kv :: bucketInsert rest key v

/-- Look a bucket up by its label, defaulting to the empty list. -/
def lookupB : List (String × List Int) → String → List Int
  | [], _ => []
  | kv :: rest, key => if kv.1 = key then kv.2 else lookupB rest key

/-- The lock-guarded buffer updates of `logging_loop` (lines 162-182):
append the timestamp, the adjusted count, the derived rate sample, and
the adjusted count into its 5-minute bucket. -/
def appendToStore (s : AppState) (now : Wallclock) : AppState :=
  { s with
      timestamps := s.timestamps ++ [timeStr now]
      bricks_cut_values := s.bricks_cut_values ++ [s.adjusted_bricks]
      bricks_cut_per_hour :=
        s.bricks_cut_per_hour ++ [rateOf (s.bricks_cut_values ++ [s.adjusted_bricks])]
      bricks_per_5min := bucketInsert s.bricks_per_5min (bucketLabel now) s.adjusted_bricks }

/-- One iteration of the body of `logging_loop`.  `fetchResult` is what
`fetch_data` returned (`none` on any fetch or parse failure, in which case
only the status string was touched).  `logWriteOk` says whether the CSV
append would succeed; the Python code does not catch exceptions from the
write, so a failing write is an `Except.error` carrying the state at the
point where the exception escapes the loop body. -/
def pollIteration (s : AppState) (fetchResult : Option Int) (now : Wallclock)
    (logWriteOk : Bool) : Except AppState AppState :=
  match fetchResult with
  | none => Except.ok { s with status := "Connection error" }
  | some raw =>
      let stepped := reconcileStep s raw (timeStr now)
      let s2 := appendToStore stepped.1 now
      if s2.previous_logged_bricks ≠ some raw then
        if logWriteOk then
          Except.ok { s2 with
              csv_records := s2.csv_records ++
                [{ timestamp := fullTimeStr now, raw := raw,
                   adjusted := s2.adjusted_bricks, event := stepped.2 }]
              previous_logged_bricks := some raw }
        else
          Except.error s2
      else
        Except.ok s2

/-- The state after one loop iteration, whether or not it completed. -/
def afterPoll (s : AppState) (fetchResult : Option Int) (now : Wallclock)
    (logWriteOk : Bool) : AppState :=
  match pollIteration s fetchResult now logWriteOk with
  | Except.ok s2 => s2
  | Except.error s2 => s2

/-- Whether the iteration ran to completion (no exception escaped), so the
loop proceeds to the next wait. -/
def pollCompleted (s : AppState) (fetchResult : Option Int) (now : Wallclock)
    (logWriteOk : Bool) : Bool :=
  match pollIteration s fetchResult now logWriteOk with
  | Except.ok _ => true
  | Except.error _ => false

/-- Run the polling loop over a list of fetch results with successful log
writes, stopping (thread death) if an iteration raises. -/
def runPoll (now : Wallclock) (s : AppState) : List (Option Int) → AppState
  | [] => s
  | f :: fs =>
      match pollIteration s f now true with
      | Except.ok s2 => runPoll now s2 fs
      | Except.error s2 => s2

/-- The last `n` elements of a list, as Python's `l[-n:]` slice. -/
def lastN (n : Nat) (l : List α) : List α := l.drop (l.length - n)

/-- The slices copied out under the lock by `update_plots` (lines 314-331):
the last 60 series points, the last 60 rate samples, the last 10 buckets. -/
def renderView (s : AppState) :
    List Int × List Int × List (String × List Int) :=
  (lastN 60 s.bricks_cut_values, lastN 60 s.bricks_cut_per_hour,
   lastN 10 s.bricks_per_5min)

/-- A fixed wall-clock instant used for concrete runs. -/
def sampleNow : Wallclock where
  hour := 7
  minute := 3
  second := 20
  dateStr := "2026-01-05"

/-- C4: whenever the series already holds at least one adjusted value, the
rate sample appended alongside a new adjusted value equals
`(new - previous) * (3600 / poll_interval_seconds)` with the fixed
60-second poll interval; on the very first append the rate sample is 0;
and for the adjusted sequence `[100, 105]` the second rate sample is
300. -/
theorem rate_sample_formula (s : AppState) (now : Wallclock) (prev : Int)
    (rest : List Int) (h : s.bricks_cut_values = rest ++ [prev]) :
    (appendToStore s now).bricks_cut_per_hour =
      s.bricks_cut_per_hour ++ [(s.adjusted_bricks - prev) * ((3600 : Int) / 60)] ∧
    (appendToStore initApp now).bricks_cut_per_hour = [0] ∧
    (appendToStore
        { appendToStore { initApp with adjusted_bricks := 100 } sampleNow with
          adjusted_bricks := 105 } sampleNow).bricks_cut_per_hour = [0, 300] := by
  refine ⟨?_, ?_, ?_⟩
  · have hcond : 2 ≤ (s.bricks_cut_values ++ [s.adjusted_bricks]).length := by
      simp [h]
    simp only [appendToStore, rateOf, if_pos hcond, h]
    rw [List.getLast?_concat, List.dropLast_concat, List.getLast?_concat]
    norm_num
  · simp [appendToStore, rateOf, initApp]
  · decide

/-- Witness for C4: appending adjusted value 105 after 100 yields the rate
sample `(105 - 100) * (3600 / 60) = 300`. -/
theorem rate_sample_formula_witness :
    (appendToStore
        { appendToStore { initApp with adjusted_bricks := 100 } sampleNow with
          adjusted_bricks := 105 } sampleNow).bricks_cut_per_hour =
      (appendToStore { initApp with adjusted_bricks := 100 } sampleNow).bricks_cut_per_hour
        ++ [((105 : Int) - 100) * ((3600 : Int) / 60)] :=
  (rate_sample_formula
      { appendToStore { initApp with adjusted_bricks := 100 } sampleNow with
        adjusted_bricks := 105 } sampleNow 100 [] (by decide)).1

/-- C5: on a successful poll, a CSV record is appended exactly when the raw
value differs from the last logged raw value; in particular the raw
sequence `[3, 3, 3, 4, 4]` produces exactly 2 log rows, one for 3 and one
for 4. -/
theorem log_append_iff_changed (s : AppState) (raw : Int) (now : Wallclock) :
    (afterPoll s (some raw) now true).csv_records.length =
      s.csv_records.length +
        (if s.previous_logged_bricks ≠ some raw then 1 else 0) ∧
    (runPoll sampleNow initApp
        [some 3, some 3, some 3, some 4, some 4]).csv_records.length = 2 := by
  constructor
  · unfold afterPoll pollIteration
    have hfix : (appendToStore (reconcileStep s raw (timeStr now)).1 now).previous_logged_bricks
        = s.previous_logged_bricks := by
      unfold appendToStore reconcileStep
      cases s.previous_raw with
      | none => simp
      | some p => by_cases hlt : raw < p <;> simp [hlt]
    have hcsv : (appendToStore (reconcileStep s raw (timeStr now)).1 now).csv_records
        = s.csv_records := by
      unfold appendToStore reconcileStep
      cases s.previous_raw with
      | none => simp
      | some p => by_cases hlt : raw < p <;> simp [hlt]
    by_cases hch : s.previous_logged_bricks ≠ some raw
    · simp [hfix, hch, hcsv]
    · simp [hfix, hch, hcsv]
  · decide

/-- C6: a failed fetch (network error, non-2xx, timeout, missing or
non-numeric field) leaves every piece of state unchanged except the status
string: the reconciler is untouched, nothing is appended to the series,
rate or bucket structures, no CSV record is written, and the loop
completes normally and proceeds to the next wait. -/
theorem fetch_failure_skips_iteration (s : AppState) (now : Wallclock) (b : Bool) :
    pollCompleted s none now b = true ∧
    (afterPoll s none now b).previous_raw = s.previous_raw ∧
    (afterPoll s none now b).offset = s.offset ∧
    (afterPoll s none now b).adjusted_bricks = s.adjusted_bricks ∧
    (afterPoll s none now b).reset_count = s.reset_count ∧
    (afterPoll s none now b).timestamps = s.timestamps ∧
    (afterPoll s none now b).bricks_cut_values = s.bricks_cut_values ∧
    (afterPoll s none now b).bricks_cut_per_hour = s.bricks_cut_per_hour ∧
    (afterPoll s none now b).bricks_per_5min = s.bricks_per_5min ∧
    (afterPoll s none now b).csv_records = s.csv_records ∧
    (afterPoll s none now b).previous_logged_bricks = s.previous_logged_bricks ∧
    (afterPoll s none now b).status = "Connection error" := by
  unfold pollCompleted afterPoll pollIteration
  simp

theorem lookupB_bucketInsert_self (m : List (String × List Int)) (key : String) (v : Int) :
    lookupB (bucketInsert m key v) key = lookupB m key ++ [v] := by
  induction m with
  | nil => simp [bucketInsert, lookupB]
  | cons kv rest ih =>
      by_cases hk : kv.1 = key
      · simp [bucketInsert, lookupB, hk]
      · simp [bucketInsert, lookupB, hk, ih]

theorem lookupB_bucketInsert_other (m : List (String × List Int)) (key k : String)
    (v : Int) (hk : k ≠ key) :
    lookupB (bucketInsert m key v) k = lookupB m k := by
  have hk2 : key ≠ k := Ne.symm hk
  induction m with
  | nil => simp [bucketInsert, lookupB, hk2]
  | cons kv rest ih =>
      by_cases h1 : kv.1 = key
      · simp [bucketInsert, lookupB, h1, hk2]
      · by_cases h2 : kv.1 = k
        · simp [bucketInsert, lookupB, h1, h2, hk, hk2]
        · simp [bucketInsert, lookupB, h1, h2, ih]

theorem reconcileStep_frame (s : AppState) (raw : Int) (ts : String) :
    (reconcileStep s raw ts).1.previous_logged_bricks = s.previous_logged_bricks ∧
    (reconcileStep s raw ts).1.timestamps = s.timestamps ∧
    (reconcileStep s raw ts).1.bricks_cut_values = s.bricks_cut_values ∧
    (reconcileStep s raw ts).1.bricks_cut_per_hour = s.bricks_cut_per_hour ∧
    (reconcileStep s raw ts).1.bricks_per_5min = s.bricks_per_5min ∧
    (reconcileStep s raw ts).1.csv_records = s.csv_records ∧
    (reconcileStep s raw ts).1.previous_raw = some raw := by
  unfold reconcileStep
  cases s.previous_raw with
  | none => simp
  | some p => by_cases hlt : raw < p <;> simp [hlt]

theorem afterPoll_store (s : AppState) (raw : Int) (now : Wallclock) (b : Bool) :
    (afterPoll s (some raw) now b).timestamps = s.timestamps ++ [timeStr now] ∧
    (afterPoll s (some raw) now b).bricks_cut_values =
      s.bricks_cut_values ++ [(reconcileStep s raw (timeStr now)).1.adjusted_bricks] ∧
    (afterPoll s (some raw) now b).bricks_cut_per_hour =
      s.bricks_cut_per_hour ++
        [rateOf (s.bricks_cut_values ++
          [(reconcileStep s raw (timeStr now)).1.adjusted_bricks])] ∧
    (afterPoll s (some raw) now b).bricks_per_5min =
      bucketInsert s.bricks_per_5min (bucketLabel now)
        ((reconcileStep s raw (timeStr now)).1.adjusted_bricks) ∧
    (afterPoll s (some raw) now b).previous_raw = some raw := by
  obtain ⟨h1, h2, h3, h4, h5, h6, h7⟩ := reconcileStep_frame s raw (timeStr now)
  unfold afterPoll pollIteration
  by_cases hch : s.previous_logged_bricks = some raw
  · cases b <;> simp [appendToStore, h1, h2, h3, h4, h5, h7, hch]
  · cases b <;> simp [appendToStore, h1, h2, h3, h4, h5, h7, hch]

/-- C7 counterexample: with a CSV write that raises an I/O error on the
very first logged reading, the loop iteration does not complete — the
exception escapes `logging_loop` and the polling thread terminates, so the
Poller does not continue to the next wait. -/
theorem log_write_failure_stops_loop_cex :
    pollCompleted initApp (some 3) sampleNow false = false := by decide

/-- C7 (amended): when the CSV append fails with an I/O error, the
in-memory series and reconciler state for that iteration have already
advanced and only persistence is skipped for that iteration, but the
exception is not caught: the iteration does not complete and the logging
thread terminates instead of continuing. -/
theorem log_write_failure_advances_state (s : AppState) (raw : Int) (now : Wallclock)
    (h : s.previous_logged_bricks ≠ some raw) :
    pollCompleted s (some raw) now false = false ∧
    (afterPoll s (some raw) now false).csv_records = s.csv_records ∧
    (afterPoll s (some raw) now false).previous_logged_bricks = s.previous_logged_bricks ∧
    (afterPoll s (some raw) now false).previous_raw = some raw ∧
    (afterPoll s (some raw) now false).bricks_cut_values =
      s.bricks_cut_values ++ [(reconcileStep s raw (timeStr now)).1.adjusted_bricks] ∧
    (afterPoll s (some raw) now false).bricks_cut_per_hour.length =
      s.bricks_cut_per_hour.length + 1 := by
  obtain ⟨h1, h2, h3, h4, h5, h6, h7⟩ := reconcileStep_frame s raw (timeStr now)
  constructor
  · unfold pollCompleted pollIteration
    simp [appendToStore, h1, h]
  · unfold afterPoll pollIteration
    simp [appendToStore, h1, h2, h3, h4, h5, h6, h7, h]

/-- Witness for C7 (amended) at the initial state with raw reading 7. -/
theorem log_write_failure_advances_state_witness :
    pollCompleted initApp (some 7) sampleNow false = false :=
  (log_write_failure_advances_state initApp 7 sampleNow (by decide)).1

/-- C8: a successful poll iteration is append-only on the store: exactly
one entry is appended to each of the timestamps, adjusted-count and rate
sequences and one value to the bucket of the current 5-minute label, no
previously stored entry is modified or removed, every other bucket is
untouched, and truncation to the most recent window (60 points for
series/rate, 10 buckets) happens only in the render-path view of the
store. -/
theorem poll_append_only (s : AppState) (raw : Int) (now : Wallclock) (k : String)
    (hk : k ≠ bucketLabel now) :
    (afterPoll s (some raw) now true).timestamps = s.timestamps ++ [timeStr now] ∧
    (afterPoll s (some raw) now true).bricks_cut_values =
      s.bricks_cut_values ++ [(reconcileStep s raw (timeStr now)).1.adjusted_bricks] ∧
    (afterPoll s (some raw) now true).bricks_cut_per_hour =
      s.bricks_cut_per_hour ++
        [rateOf (s.bricks_cut_values ++
          [(reconcileStep s raw (timeStr now)).1.adjusted_bricks])] ∧
    lookupB (afterPoll s (some raw) now true).bricks_per_5min (bucketLabel now) =
      lookupB s.bricks_per_5min (bucketLabel now) ++
        [(reconcileStep s raw (timeStr now)).1.adjusted_bricks] ∧
    lookupB (afterPoll s (some raw) now true).bricks_per_5min k =
      lookupB s.bricks_per_5min k ∧
    renderView (afterPoll s (some raw) now true) =
      (lastN 60 (afterPoll s (some raw) now true).bricks_cut_values,
       lastN 60 (afterPoll s (some raw) now true).bricks_cut_per_hour,
       lastN 10 (afterPoll s (some raw) now true).bricks_per_5min) := by
  obtain ⟨hts, hv, hr, hb, hpr⟩ := afterPoll_store s raw now true
  refine ⟨hts, hv, hr, ?_, ?_, rfl⟩
  · rw [hb, lookupB_bucketInsert_self]
  · rw [hb, lookupB_bucketInsert_other _ _ _ _ hk]

/-- Witness for C8: one timestamp is appended on a successful poll from the
initial state. -/
theorem poll_append_only_witness :
    (afterPoll initApp (some 3) sampleNow true).timestamps =
      initApp.timestamps ++ [timeStr sampleNow] :=
  (poll_append_only initApp 3 sampleNow "23:55" (by decide)).1

/-- C10: the first successful raw reading of a session is always logged,
whatever its value: the last-logged tracker starts as the sentinel `none`,
which differs from `some raw` for every raw value, so the log-if-changed
condition holds and exactly one CSV record is appended. -/
theorem first_reading_always_logged (s : AppState) (raw : Int) (now : Wallclock)
    (h : s.previous_logged_bricks = none) :
    s.previous_logged_bricks ≠ some raw ∧
    (afterPoll s (some raw) now true).csv_records.length = s.csv_records.length + 1 ∧
    (afterPoll s (some raw) now true).previous_logged_bricks = some raw ∧
    initApp.previous_logged_bricks = none := by
  obtain ⟨h1, h2, h3, h4, h5, h6, h7⟩ := reconcileStep_frame s raw (timeStr now)
  refine ⟨by simp [h], ?_, ?_, rfl⟩
  · unfold afterPoll pollIteration
    simp [appendToStore, h1, h6, h]
  · unfold afterPoll pollIteration
    simp [appendToStore, h1, h]

/-- Witness for C10: from the initial state, raw reading 42 is logged. -/
theorem first_reading_always_logged_witness :
    (afterPoll initApp (some 42) sampleNow true).csv_records.length =
      initApp.csv_records.length + 1 :=
  (first_reading_always_logged initApp 42 sampleNow rfl).2.1

/-
Interleaving model for the shared series store.  The writer (the logging
thread) and the reader (the Matplotlib animation callback) both take
`data_lock` around their whole critical section; inside a critical section
the individual appends (writer) and list copies (reader) are separate
micro-steps, so any consistency of the reader's joint view must come from
the mutual exclusion, not from atomicity of the section bodies.
-/

/-- Who holds `data_lock`, and the program counter inside the held
critical section. -/
inductive Owner where
  | free
  | writerHolds (pc : Nat)
  | readerHolds (pc : Nat)
deriving DecidableEq, Repr

/-- The shared store plus lock state and the reader's copied-out slices. -/
structure ConcState where
  timestamps : List String
  values : List Int
  rates : List Int
  buckets : List (String × List Int)
  owner : Owner
  pendingTs : String
  pendingVal : Int
  pendingBucket : String
  snapVals : Option (List Int)
  snapRates : Option (List Int)
  snapBuckets : Option (List (String × List Int))
deriving DecidableEq, Repr

/-- The state at application start: empty buffers, lock free. -/
def initConc : ConcState where
  timestamps := []
  values := []
  rates := []
  buckets := []
  owner := Owner.free
  pendingTs := ""
  pendingVal := 0
  pendingBucket := ""
  snapVals := none
  snapRates := none
  snapBuckets := none

/-- One atomic micro-step of either thread.  The writer's critical section
is the `with self.data_lock` block of `logging_loop` (four appends in
order); the reader's is the `with self.data_lock` block of `update_plots`
(three slice copies in order).  Acquiring requires the lock to be free. -/
inductive CStep : ConcState → ConcState → Prop where
  | writerAcquire (s : ConcState) (ts : String) (v : Int) (bk : String)
      (h : s.owner = Owner.free) :
      CStep s { s with owner := Owner.writerHolds 0,
                       pendingTs := ts, pendingVal := v, pendingBucket := bk }
  | writerAppendTs (s : ConcState) (h : s.owner = Owner.writerHolds 0) :
      CStep s { s with timestamps := s.timestamps ++ [s.pendingTs],
                       owner := Owner.writerHolds 1 }
  | writerAppendVal (s : ConcState) (h : s.owner = Owner.writerHolds 1) :
      CStep s { s with values := s.values ++ [s.pendingVal],
                       owner := Owner.writerHolds 2 }
  | writerAppendRate (s : ConcState) (h : s.owner = Owner.writerHolds 2) :
      CStep s { s with rates := s.rates ++ [rateOf s.values],
                       owner := Owner.writerHolds 3 }
  | writerAppendBucket (s : ConcState) (h : s.owner = Owner.writerHolds 3) :
      CStep s { s with buckets := bucketInsert s.buckets s.pendingBucket s.pendingVal,
                       owner := Owner.writerHolds 4 }
  | writerRelease (s : ConcState) (h : s.owner = Owner.writerHolds 4) :
      CStep s { s with owner := Owner.free }
  | readerAcquire (s : ConcState) (h : s.owner = Owner.free) :
      CStep s { s with owner := Owner.readerHolds 0 }
  | readerCopyVals (s : ConcState) (h : s.owner = Owner.readerHolds 0) :
      CStep s { s with snapVals := some (lastN 60 s.values),
                       owner := Owner.readerHolds 1 }
  | readerCopyRates (s : ConcState) (h : s.owner = Owner.readerHolds 1) :
      CStep s { s with snapRates := some (lastN 60 s.rates),
                       owner := Owner.readerHolds 2 }
  | readerCopyBuckets (s : ConcState) (h : s.owner = Owner.readerHolds 2) :
      CStep s { s with snapBuckets := some (lastN 10 s.buckets),
                       owner := Owner.readerHolds 3 }
  | readerRelease (s : ConcState) (h : s.owner = Owner.readerHolds 3) :
      CStep s { s with owner := Owner.free }

/-- States reachable from application start by interleaved micro-steps. -/
inductive CReach : ConcState → Prop where
  | init : CReach initConc
  | step (s s2 : ConcState) : CReach s → CStep s s2 → CReach s2

/-- A completed pair of copied slices is a consistent joint view: equal
lengths below the window bound. -/
def snapConsistent (s : ConcState) : Prop :=
  ∀ a b, s.snapVals = some a → s.snapRates = some b → a.length = b.length

/-- The lock invariant: outside the writer's critical section the series
and rate lists have equal length (inside it,, only between the value
append and the rate append, the series is one ahead); the reader's copies
made so far in its critical section reflect the current store; and except
in the one instant between the reader's two copies, the stored snapshot
pair is consistent. -/
def CInv (s : ConcState) : Prop :=
  (match s.owner with
   | Owner.writerHolds pc =>
       if pc = 2 then s.values.length = s.rates.length + 1
       else s.values.length = s.rates.length
   | _ => s.values.length = s.rates.length) ∧
  (∀ pc, s.owner = Owner.readerHolds pc → 1 ≤ pc →
      s.snapVals = some (lastN 60 s.values)) ∧
  (s.owner = Owner.readerHolds 1 ∨ snapConsistent s)

theorem lastN_length (n : Nat) (l : List α) :
    (lastN n l).length = l.length - (l.length - n) := by
  simp [lastN]

theorem cinv_init : CInv initConc := by
  refine ⟨by simp [initConc], ?_, Or.inr ?_⟩
  · intro pc hpc
    simp [initConc] at hpc
  · intro a b ha hb
    simp [initConc] at ha

theorem cinv_step (s s2 : ConcState) (hs : CInv s) (hstep : CStep s s2) :
    CInv s2 := by
  obtain ⟨hlen, hsnap, hcons⟩ := hs
  cases hstep with
  | writerAcquire ts v bk h =>
      rw [h] at hlen
      refine ⟨by simpa using hlen, ?_, Or.inr ?_⟩
      · intro pc hpc; simp at hpc
      · rcases hcons with hc | hc
        · rw [h] at hc; cases hc
        · intro a b ha hb; exact hc a b ha hb
  | writerAppendTs h =>
      rw [h] at hlen
      simp at hlen
      refine ⟨by simpa using hlen, ?_, Or.inr ?_⟩
      · intro pc hpc; simp at hpc
      · rcases hcons with hc | hc
        · rw [h] at hc; cases hc
        · intro a b ha hb; exact hc a b ha hb
  | writerAppendVal h =>
      rw [h] at hlen
      simp at hlen
      refine ⟨by simp [hlen], ?_, Or.inr ?_⟩
      · intro pc hpc; simp at hpc
      · rcases hcons with hc | hc
        · rw [h] at hc; cases hc
        · intro a b ha hb; exact hc a b ha hb
  | writerAppendRate h =>
      rw [h] at hlen
      simp at hlen
      refine ⟨by simp [hlen], ?_, Or.inr ?_⟩
      · intro pc hpc; simp at hpc
      · rcases hcons with hc | hc
        · rw [h] at hc; cases hc
        · intro a b ha hb; exact hc a b ha hb
  | writerAppendBucket h =>
      rw [h] at hlen
      simp at hlen
      refine ⟨by simpa using hlen, ?_, Or.inr ?_⟩
      · intro pc hpc; simp at hpc
      · rcases hcons with hc | hc
        · rw [h] at hc; cases hc
        · intro a b ha hb; exact hc a b ha hb
  | writerRelease h =>
      rw [h] at hlen
      simp at hlen
      refine ⟨by simpa using hlen, ?_, Or.inr ?_⟩
      · intro pc hpc; simp at hpc
      · rcases hcons with hc | hc
        · rw [h] at hc; cases hc
        · intro a b ha hb; exact hc a b ha hb
  | readerAcquire h =>
      rw [h] at hlen
      refine ⟨by simpa using hlen, ?_, Or.inr ?_⟩
      · intro pc hpc hpc1
        simp at hpc
        omega
      · rcases hcons with hc | hc
        · rw [h] at hc; cases hc
        · intro a b ha hb; exact hc a b ha hb
  | readerCopyVals h =>
      rw [h] at hlen
      refine ⟨by simpa using hlen, ?_, Or.inl rfl⟩
      intro pc hpc hpc1
      simp
  | readerCopyRates h =>
      rw [h] at hlen
      have hv := hsnap 1 h (by omega)
      refine ⟨by simpa using hlen, ?_, Or.inr ?_⟩
      · intro pc hpc hpc1
        simpa using hv
      · intro a b ha hb
        simp at ha hb
        rw [hv] at ha
        simp at ha
        rw [← ha, ← hb, lastN_length, lastN_length, hlen]
  | readerCopyBuckets h =>
      rw [h] at hlen
      have hv := hsnap 2 h (by omega)
      refine ⟨by simpa using hlen, ?_, Or.inr ?_⟩
      · intro pc hpc hpc1
        simpa using hv
      · rcases hcons with hc | hc
        · rw [h] at hc; cases hc
        · intro a b ha hb
          simp at ha hb
          exact hc a b ha hb
  | readerRelease h =>
      rw [h] at hlen
      refine ⟨by simpa using hlen, ?_, Or.inr ?_⟩
      · intro pc hpc; simp at hpc
      · rcases hcons with hc | hc
        · rw [h] at hc; cases hc
        · intro a b ha hb; exact hc a b ha hb

theorem cinv_reach (s : ConcState) (hr : CReach s) : CInv s := by
  induction hr with
  | init => exact cinv_init
  | step s s2 _ hstep ih => exact cinv_step s s2 ih hstep

/-- C9: in the lock-granular interleaving semantics, every snapshot the
renderer completes under `data_lock` is a consistent joint view of the
shared structures: whenever the reader has finished copying its slices
(program counter 3 of its critical section) in any reachable state, the
copied rate slice can never be longer or shorter than a concurrent
writer's half-finished append would make it — its length equals that of
the copied adjusted-value slice, because each append and each snapshot
read is serialized under the single mutual-exclusion scope. -/
theorem snapshot_consistent (s : ConcState) (a b : List Int)
    (hr : CReach s) (ho : s.owner = Owner.readerHolds 3)
    (ha : s.snapVals = some a) (hb : s.snapRates = some b) :
    a.length = b.length := by
  obtain ⟨_, _, hcons⟩ := cinv_reach s hr
  rcases hcons with hc | hc
  · rw [ho] at hc; cases hc
  · exact hc a b ha hb

/-- Witness for C9: a full writer round followed by a full reader round
reaches a completed snapshot, and the two copied slices have equal
length. -/
theorem snapshot_consistent_witness :
    ([42] : List Int).length = ([0] : List Int).length := by
  have h0 : CReach initConc := CReach.init
  have h1 := CReach.step _ _ h0 (CStep.writerAcquire _ "07:03:20" 42 "07:00" rfl)
  have h2 := CReach.step _ _ h1 (CStep.writerAppendTs _ rfl)
  have h3 := CReach.step _ _ h2 (CStep.writerAppendVal _ rfl)
  have h4 := CReach.step _ _ h3 (CStep.writerAppendRate _ rfl)
  have h5 := CReach.step _ _ h4 (CStep.writerAppendBucket _ rfl)
  have h6 := CReach.step _ _ h5 (CStep.writerRelease _ rfl)
  have h7 := CReach.step _ _ h6 (CStep.readerAcquire _ rfl)
  have h8 := CReach.step _ _ h7 (CStep.readerCopyVals _ rfl)
  have h9 := CReach.step _ _ h8 (CStep.readerCopyRates _ rfl)
  have h10 := CReach.step _ _ h9 (CStep.readerCopyBuckets _ rfl)
  exact snapshot_consistent _ [42] [0] h10 rfl (by decide) (by decide)

end BrickDash
